import Mathlib

/-!
# Verification of the invoice layout engine

Shallow embedding of the core of the `invoice` repository (Go), following
the canonical service implementation in `internal/services/pdf/renderer.go`,
`internal/services/currency` and `internal/models`.  Strings are modelled as
`List Char`; Go `float64` values are modelled as `ℚ` (the claims under check
concern the order and structure of the arithmetic, not floating-point
rounding); byte lengths (`len` on ASCII data) are modelled as character
counts.
-/

set_option autoImplicit false

namespace InvoiceGen

/-- A Go string, modelled as its list of characters. -/
abbrev Str := List Char

/-- Whitespace test used by `strings.Fields` (restricted to the ASCII
whitespace characters that occur in this system's data). -/
def isSpaceChar (c : Char) : Bool :=
  c = ' ' || c = '\t' || c = '\n' || c = '\r'

/-- Worker for `strings.Fields`: `acc` holds the characters of the current
word in reverse order. -/
def fieldsAux (acc : Str) : Str → List Str
  | [] => if acc = [] then [] else [acc.reverse]
  | c :: cs =>
    if isSpaceChar c then
      if acc = [] then fieldsAux [] cs else acc.reverse :: fieldsAux [] cs
    else
      fieldsAux (c :: acc) cs

/-- Go `strings.Fields`: split a string around runs of whitespace. -/
def fieldsOf (s : Str) : List Str := fieldsAux [] s

/-- Go `strings.ReplaceAll(s, "\\n", "\n")`: replace each literal
two-character backslash-n escape by a real line break (leftmost first,
non-overlapping). -/
def replaceEscapes : Str → Str
  | '\\' :: 'n' :: rest => '\n' :: replaceEscapes rest
  | c :: rest => c :: replaceEscapes rest
  | [] => []

/-- Go `strings.Split(s, "\n")` (keeps empty parts). -/
def splitNewlines : Str → List Str
  | [] => [[]]
  | c :: cs =>
    if c = '\n' then [] :: splitNewlines cs
    else
      match splitNewlines cs with
      | [] => [[c]]
      | l :: ls => (c :: l) :: ls

/-- Join a list of words with single spaces (the string the wrapping loop's
accumulator holds when it contains exactly these words). -/
def joinWords : List Str → Str
  | [] => []
  | [w] => w
  | w :: ws => w ++ ' ' :: joinWords ws

/-- Effective measured width of a string inside `writeMultilineText`:
`pdf.MeasureTextWidth` may fail (modelled by `Option`), in which case the
code substitutes the rough estimate `len(testLine) * 5`. -/
def effWidth (meas : Str → Option ℚ) (s : Str) : ℚ :=
  (meas s).getD ((s.length * 5 : ℕ) : ℚ)

/-- The word loop of `writeMultilineText` (renderer.go lines 347-380):
greedy fill of `currentLine`, flushing a completed line only when the
accumulator is non-empty.  Returns the emitted lines in order. -/
def wrapLoop (meas : Str → Option ℚ) (maxWidth : ℚ) :
    List Str → Str → List Str
  | [], currentLine => if currentLine = [] then [] else [currentLine]
  | w :: ws, currentLine =>
    let testLine := if currentLine = [] then w else currentLine ++ ' ' :: w
    if effWidth meas testLine > maxWidth ∧ currentLine ≠ [] then
      currentLine :: wrapLoop meas maxWidth ws w
    else
      wrapLoop meas maxWidth ws testLine

/-- Model of `writeMultilineText` as a pure function from the input text to the
sequence of emitted lines (the cursor side effects are handled by the
callers, modelled separately). -/
def wrapLines (meas : Str → Option ℚ) (maxWidth : ℚ) (text : Str) :
    List Str :=
  wrapLoop meas maxWidth (fieldsOf text) []

example : fieldsOf ("  a bc  d ".toList) = ["a".toList, "bc".toList, "d".toList] := by decide

example : replaceEscapes ("a\\nb".toList) = "a\nb".toList := by decide

example :
    wrapLines (fun _ => none) 20 ("abcdef gh".toList)
      = ["abcdef".toList, "gh".toList] := by decide

example :
    wrapLines (fun _ => none) 40 ("ab cd ef".toList) = ["ab cd ef".toList] := by decide

/-- Model of `models.Footer` (internal/models/invoice.go). -/
structure Footer where
  companyName : Str
  registrationInfo : Str
  showRegistration : Bool
  vatId : Str
  showVatId : Bool
  address : Str
  city : Str
  zip : Str
  phone : Str
  email : Str
  website : Str
  bankName : Str
  bankIban : Str
  bankBic : Str
deriving DecidableEq

/-- Model of `models.Invoice` (internal/models/invoice.go).  The Go fields `From` and
`To` are named `fromAddr`/`toAddr` here because `from` is a Lean keyword. -/
structure Invoice where
  id : Str
  idSuffix : Str
  title : Str
  logo : Str
  fromAddr : Str
  toAddr : Str
  date : Str
  due : Str
  items : List Str
  quantities : List ℤ
  rates : List ℚ
  tax : ℚ
  taxExempt : Bool
  discount : ℚ
  currency : Str
  note : Str
  footer : Footer
deriving DecidableEq

/-- Label of the subtotal line (`subtotalLabel` in renderer.go). -/
def subtotalLabel : Str := "Zwischensumme".toList

/-- Label of the discount line (`discountLabel`). -/
def discountLabel : Str := "Rabatt".toList

/-- Label of the tax line (`taxLabel`). -/
def taxLabel : Str := "MwSt.".toList

/-- Label of the grand-total line (`totalLabel`). -/
def totalLabel : Str := "Gesamt".toList

/-- The fixed legal notice shown instead of the tax line when the invoice is
tax exempt (renderer.go line 605). -/
def taxExemptNotice : Str :=
  "Gemäß § 19 UStG wird keine Umsatzsteuer berechnet.".toList

/-- One line of the totals block: either a labelled amount written through
`writeTotal`, or the tax-exemption notice cell. -/
inductive TotalsLine where
  | line (label : Str) (value : ℚ)
  | notice (text : Str)
deriving DecidableEq

/-- Model of `writeTotals` (renderer.go lines 584-620) as the sequence of lines it
emits.  The final amount mirrors the source exactly:
`total := subtotal - discount; if !taxExempt { total += tax }`. -/
def writeTotals (subtotal tax discount : ℚ) (taxExempt : Bool) :
    List TotalsLine :=
  [TotalsLine.line subtotalLabel subtotal]
    ++ (if taxExempt = false ∧ tax > 0 then [TotalsLine.line taxLabel tax]
        else if taxExempt = true then [TotalsLine.notice taxExemptNotice]
        else [])
    ++ (if discount > 0 then [TotalsLine.line discountLabel discount] else [])
    ++ [TotalsLine.line totalLabel
          (if taxExempt = false then subtotal - discount + tax
           else subtotal - discount)]

/-- The subtotal accumulation loop of `PDFRenderer.Render` (renderer.go
lines 84-100): iterate over the item indices, defaulting a missing quantity
to `1` and a missing rate to `0`. -/
def subtotalOf (inv : Invoice) : ℚ :=
  (List.range inv.items.length).foldl
    (fun acc i => acc + ((inv.quantities.getD i 1 : ℤ) : ℚ) * inv.rates.getD i 0)
    0

/-- The argument list of the `writeTotals` call in `Render` (renderer.go
line 108): tax and discount amounts are both computed from the raw,
pre-discount subtotal. -/
def totalsLinesOf (inv : Invoice) : List TotalsLine :=
  writeTotals (subtotalOf inv) (subtotalOf inv * inv.tax)
    (subtotalOf inv * inv.discount) inv.taxExempt

/-! ### Currency resolver (internal/services/currency, `GetSymbol`) -/

/-- Go `strings.ToUpper` (the currency codes handled here are ASCII):
uppercase every character of the string. -/
def strToUpper (s : String) : String := ⟨s.data.map Char.toUpper⟩

/-- The default built-in currency symbol table (`initDefaultSymbols`). -/
def defaultCurrencySymbols : List (String × String) :=
  [("USD", "$"), ("EUR", "€"), ("GBP", "£"), ("JPY", "¥"), ("CNY", "¥"),
   ("INR", "₹"), ("RUB", "₽"), ("KRW", "₩"), ("BRL", "R$"), ("SGD", "S$"),
   ("AUD", "A$"), ("CAD", "C$"), ("CHF", "CHF"), ("HKD", "HK$"),
   ("NZD", "NZ$"), ("SEK", "kr"), ("NOK", "kr"), ("DKK", "kr"),
   ("ZAR", "R"), ("MXN", "Mex$"), ("AED", "د.إ"), ("THB", "฿"),
   ("PLN", "zł")]

/-- Model of `DefaultCurrencyService.GetSymbol` over an arbitrary active symbol
table: empty code short-circuits to the empty string; otherwise the code is
uppercased and looked up, and a missing entry falls back to the original
code followed by one space. -/
def getCurrencySymbol (symbols : List (String × String)) (currency : String) :
    String :=
  if currency = "" then ""
  else
    match symbols.lookup (strToUpper currency) with
    | some symbol => symbol
    | none => currency ++ " "

/-! ### Item rows (`writeRow`) -/

/-- Fixed column offset of the quantity column (renderer.go line 19). -/
def quantityColumnOffset : ℕ := 390

/-- The wrapped description lines of one item row: `writeRow` wraps a long
description into `quantityColumnOffset - 60` points with line height 12. -/
def writeRowDescLines (meas : Str → Option ℚ) (item : Str) : List Str :=
  wrapLines meas ((quantityColumnOffset - 60 : ℕ) : ℚ) item

/-- The vertical position at which `writeRow` places that row's quantity,
rate and amount cells, given the cursor position `startY` at which the row
started.  A long description (more than 40 characters) is wrapped — each
emitted line advances the cursor by 12 — and then the cursor is moved back
up by exactly one line height (`pdf.SetY(pdf.GetY() - 12)`). -/
def writeRowNumericY (meas : Str → Option ℚ) (startY : ℚ) (item : Str) : ℚ :=
  if item.length > 40 then
    (startY + 12 * ((writeRowDescLines meas item).length : ℚ)) - 12
  else startY

/-! ### Footer (`writeFooter`) -/

/-- The zip/city concatenation of the footer's middle column (renderer.go
lines 485-490). -/
def zipCityOf (f : Footer) : Str :=
  if f.zip ≠ [] ∧ f.city ≠ [] then f.zip ++ ' ' :: f.city
  else if f.city ≠ [] then f.city
  else f.zip

/-- The email/website contact string of the footer's middle column
(renderer.go lines 503-511). -/
def contactInfoOf (f : Footer) : Str :=
  if f.email ≠ [] then
    if f.website ≠ [] then f.email ++ " | ".toList ++ f.website else f.email
  else if f.website ≠ [] then f.website
  else []

/-- One text cell drawn by `writeFooter`, tagged by which field produced
it. -/
inductive FooterCell where
  | company (s : Str)
  | reg (s : Str)
  | vat (s : Str)
  | address (s : Str)
  | zipCity (s : Str)
  | phone (s : Str)
  | contact (s : Str)
  | bankHeader
  | bank (s : Str)
  | iban (s : Str)
  | bic (s : Str)
  | pageId (s : Str)
deriving DecidableEq

/-- Model of `writeFooter` (renderer.go lines 418-551) as the sequence of cells it
draws: left column (company, gated registration block, gated VAT id),
middle column (address, zip/city, optional phone, contact info wrapped past
30 characters), right column (bank block), and the page-corner invoice
id. -/
def writeFooterCells (meas : Str → Option ℚ) (id : Str) (f : Footer) :
    List FooterCell :=
  [FooterCell.company f.companyName]
    ++ (if f.showRegistration = true ∧ f.registrationInfo ≠ [] then
          let formattedRegInfo := replaceEscapes f.registrationInfo
          if formattedRegInfo.contains '\n' then
            (wrapLines meas 150 formattedRegInfo).map FooterCell.reg
          else [FooterCell.reg formattedRegInfo]
        else [])
    ++ (if f.showVatId = true ∧ f.vatId ≠ [] then [FooterCell.vat f.vatId]
        else [])
    ++ [FooterCell.address f.address, FooterCell.zipCity (zipCityOf f)]
    ++ (if f.phone ≠ [] then [FooterCell.phone ("Tel.: ".toList ++ f.phone)]
        else [])
    ++ (if (contactInfoOf f).length > 30 then
          (wrapLines meas 160 (contactInfoOf f)).map FooterCell.contact
        else [FooterCell.contact (contactInfoOf f)])
    ++ [FooterCell.bankHeader, FooterCell.bank f.bankName]
    ++ (if f.bankIban ≠ [] then
          [FooterCell.iban ("IBAN: ".toList ++ f.bankIban)]
        else [])
    ++ (if f.bankBic ≠ [] then [FooterCell.bic ("BIC: ".toList ++ f.bankBic)]
        else [])
    ++ [FooterCell.pageId (id ++ " · 1/1".toList)]

/-! ### Document assembly (`PDFRenderer.Render`, `setupFonts`) -/

/-- Path of the regular font asset (`InterRegularFont`). -/
def interRegularFont : Str := "Inter/Inter Variable/Inter.ttf".toList

/-- Path of the bold font asset (`InterBoldFont`). -/
def interBoldFont : Str :=
  "Inter/Inter Hinted for Windows/Desktop/Inter-Bold.ttf".toList

/-- The fatal message produced when either font file is missing
(renderer.go lines 191-195): the `fmt.Errorf` format string instantiated
with both expected paths. -/
def fontsMissingMsg : Str :=
  ("Error: The Inter fonts are missing. Please download and restore the "
    ++ "Inter font files.\nYou can download them from: "
    ++ "https://github.com/rsms/inter\nDirectories needed:\n- ").toList
    ++ interRegularFont ++ "\n- ".toList ++ interBoldFont

/-- Error message when loading the regular font fails (the wrapped gopdf
error detail is elided). -/
def loadRegularFailedMsg : Str := "failed to load Inter font: ".toList

/-- Error message when loading the bold font fails. -/
def loadBoldFailedMsg : Str := "failed to load Inter-Bold font: ".toList

/-- The filesystem/font facts `setupFonts` consults: whether a path exists
(`os.Stat`) and whether `pdf.AddTTFFont` succeeds on it. -/
structure FontEnv where
  fontExists : Str → Bool
  loadOk : Str → Bool

/-- Model of `setupFonts` (renderer.go lines 188-219): fail with the descriptive
message if either font file is missing, then attempt to load both. -/
def setupFonts (env : FontEnv) : Except Str Unit :=
  if env.fontExists interRegularFont = false then
    Except.error fontsMissingMsg
  else if env.fontExists interBoldFont = false then
    Except.error fontsMissingMsg
  else if env.loadOk interRegularFont = false then
    Except.error loadRegularFailedMsg
  else if env.loadOk interBoldFont = false then
    Except.error loadBoldFailedMsg
  else Except.ok ()

/-- The full displayed invoice number (`Render` lines 73-76). -/
def fullInvoiceId (inv : Invoice) : Str :=
  if inv.idSuffix ≠ [] then inv.id ++ inv.idSuffix else inv.id

/-- One section of the assembled document, carrying the data the
corresponding section renderer draws. -/
inductive Section where
  | logo (fromLines : List Str)
  | title (text id date : Str)
  | billTo (toLines : List Str)
  | headerRow
  | row (item : Str) (quantity : ℤ) (rate : ℚ)
  | notes (lines : List Str)
  | totals (lines : List TotalsLine)
  | dueDate (d : Str)
  | footer (cells : List FooterCell)
deriving DecidableEq

/-- The fixed section pipeline of `PDFRenderer.Render` (renderer.go lines
79-114): logo/from, title, bill-to, column headers, one row per item with
the defaulting rule, the notes block (only when a note is present, wrapped
at width 320 after escape conversion), the totals block, the due-date line
(only when present), and the footer. -/
def renderSections (meas : Str → Option ℚ) (inv : Invoice) : List Section :=
  [Section.logo (splitNewlines (replaceEscapes inv.fromAddr)),
   Section.title inv.title (fullInvoiceId inv) inv.date,
   Section.billTo (splitNewlines (replaceEscapes inv.toAddr)),
   Section.headerRow]
    ++ (List.range inv.items.length).map
        (fun i =>
          Section.row (inv.items.getD i []) (inv.quantities.getD i 1)
            (inv.rates.getD i 0))
    ++ (if inv.note ≠ [] then
          [Section.notes (wrapLines meas 320 (replaceEscapes inv.note))]
        else [])
    ++ [Section.totals (totalsLinesOf inv)]
    ++ (if inv.due ≠ [] then [Section.dueDate inv.due] else [])
    ++ [Section.footer (writeFooterCells meas (fullInvoiceId inv) inv.footer)]

/-- Model of `PDFRenderer.Render` (renderer.go lines 65-118): the font precondition
is checked first and its failure is returned before any section is drawn
and before any bytes are produced; on success the full fixed pipeline is
assembled. -/
def render (env : FontEnv) (meas : Str → Option ℚ) (inv : Invoice) :
    Except Str (List Section) :=
  match setupFonts env with
  | Except.error e => Except.error e
  | Except.ok _ => Except.ok (renderSections meas inv)

/-! ### Lemmas about `strings.Fields` and the wrapping loop -/

/-- A word as produced by `strings.Fields`: non-empty and free of
whitespace. -/
def goodWord (w : Str) : Prop := w ≠ [] ∧ ∀ c ∈ w, isSpaceChar c = false

theorem fieldsAux_good :
    ∀ (cs acc : Str), (∀ c ∈ acc, isSpaceChar c = false) →
      ∀ w ∈ fieldsAux acc cs, goodWord w := by
  intro cs
  induction cs with
  | nil =>
    intro acc hacc w hw
    by_cases h0 : acc = []
    · subst h0; simp [fieldsAux] at hw
    · simp [fieldsAux, h0] at hw
      subst hw
      refine ⟨by simpa using h0, ?_⟩
      intro c hc
      exact hacc c (List.mem_reverse.mp hc)
  | cons c cs ih =>
    intro acc hacc w hw
    by_cases hc : isSpaceChar c = true
    · by_cases h0 : acc = []
      · subst h0
        simp only [fieldsAux, hc, if_true, if_pos rfl] at hw
        exact ih [] (by simp) w hw
      · simp only [fieldsAux, hc, if_true, if_neg h0] at hw
        rcases List.mem_cons.mp hw with h | h
        · subst h
          refine ⟨by simpa using h0, ?_⟩
          intro d hd
          exact hacc d (List.mem_reverse.mp hd)
        · exact ih [] (by simp) w h
    · have hc2 : isSpaceChar c = false := by simpa using hc
      simp only [fieldsAux, hc2, Bool.false_eq_true, if_false] at hw
      refine ih (c :: acc) ?_ w hw
      intro d hd
      rcases List.mem_cons.mp hd with h | h
      · subst h; exact hc2
      · exact hacc d h

theorem fieldsOf_good (s : Str) : ∀ w ∈ fieldsOf s, goodWord w :=
  fieldsAux_good s [] (by simp)

theorem fieldsAux_word :
    ∀ (w acc cs : Str), (∀ c ∈ w, isSpaceChar c = false) →
      fieldsAux acc (w ++ cs) = fieldsAux (w.reverse ++ acc) cs := by
  intro w
  induction w with
  | nil => intro acc cs _; simp
  | cons c w ih =>
    intro acc cs hw
    have hc : isSpaceChar c = false := hw c (by simp)
    simp only [List.cons_append, fieldsAux, hc, Bool.false_eq_true, if_false]
    simp only [List.append_eq]
    rw [ih (c :: acc) cs (fun d hd => hw d (List.mem_cons_of_mem c hd))]
    simp [List.append_assoc]

theorem joinWords_ne_nil :
    ∀ (g : List Str), (∀ w ∈ g, goodWord w) → g ≠ [] → joinWords g ≠ [] := by
  intro g hg h0
  match g with
  | [w] =>
    have := (hg w (by simp)).1
    simpa [joinWords] using this
  | w :: b :: t =>
    simp only [joinWords]
    intro h
    rcases List.append_eq_nil.mp h with ⟨_, h2⟩
    exact List.cons_ne_nil _ _ h2

theorem joinWords_concat :
    ∀ (g : List Str) (w : Str), g ≠ [] →
      joinWords (g ++ [w]) = joinWords g ++ ' ' :: w := by
  intro g
  induction g with
  | nil => intro w h; exact absurd rfl h
  | cons a t ih =>
    intro w _
    match t with
    | [] => simp [joinWords]
    | b :: t2 =>
      have := ih w (List.cons_ne_nil b t2)
      simp only [List.cons_append, joinWords] at this ⊢
      simp only [List.append_eq] at this ⊢
      rw [this]
      simp [List.append_assoc]

theorem fieldsOf_joinWords :
    ∀ (ws : List Str), (∀ w ∈ ws, goodWord w) →
      fieldsOf (joinWords ws) = ws := by
  intro ws
  induction ws with
  | nil => simp [fieldsOf, joinWords, fieldsAux]
  | cons w t ih =>
    intro hg
    have hw : goodWord w := hg w (by simp)
    match t with
    | [] =>
      show fieldsAux [] (joinWords [w]) = [w]
      have hjw : joinWords [w] = w := rfl
      have h := fieldsAux_word w [] [] hw.2
      simp only [List.append_nil] at h
      rw [hjw, h]
      simp [fieldsAux, hw.1]
    | b :: t2 =>
      show fieldsAux [] (joinWords (w :: b :: t2)) = w :: b :: t2
      have h1 : joinWords (w :: b :: t2) = w ++ ' ' :: joinWords (b :: t2) := by
        simp [joinWords]
      rw [h1]
      have h2 := fieldsAux_word w [] (' ' :: joinWords (b :: t2)) hw.2
      simp only [List.append_nil] at h2
      rw [h2]
      have hsp : isSpaceChar ' ' = true := by decide
      have hrev : w.reverse ≠ [] := by simpa using hw.1
      simp only [fieldsAux, hsp, if_true, if_neg hrev, List.reverse_reverse]
      have hrec := ih (fun u hu => hg u (List.mem_cons_of_mem w hu))
      simp only [fieldsOf] at hrec
      rw [hrec]

theorem wrapLoop_content (meas : Str → Option ℚ) (maxW : ℚ) :
    ∀ (ws g : List Str), (∀ w ∈ ws, goodWord w) → (∀ w ∈ g, goodWord w) →
      (wrapLoop meas maxW ws (joinWords g)).flatMap fieldsOf = g ++ ws := by
  intro ws
  induction ws with
  | nil =>
    intro g _ hg
    by_cases h0 : g = []
    · subst h0; simp [wrapLoop, joinWords]
    · have hne := joinWords_ne_nil g hg h0
      simp [wrapLoop, hne, fieldsOf_joinWords g hg]
  | cons w ws ih =>
    intro g hws hg
    have hw : goodWord w := hws w (by simp)
    have hws2 : ∀ u ∈ ws, goodWord u :=
      fun u hu => hws u (List.mem_cons_of_mem w hu)
    have hgw : ∀ u ∈ g ++ [w], goodWord u := by
      intro u hu
      rcases List.mem_append.mp hu with h | h
      · exact hg u h
      · simp at h; subst h; exact hw
    by_cases h0 : g = []
    · subst h0
      have hsingle : ∀ u ∈ [w], goodWord u := by
        intro u hu; simp at hu; subst hu; exact hw
      simp only [joinWords, wrapLoop, ne_eq, not_true_eq_false, and_false,
        if_false, if_pos rfl]
      have := ih [w] hws2 hsingle
      simpa [joinWords] using this
    · have hne := joinWords_ne_nil g hg h0
      have htest :
          (if joinWords g = [] then w else joinWords g ++ ' ' :: w)
            = joinWords (g ++ [w]) := by
        rw [if_neg hne, joinWords_concat g w h0]
      simp only [wrapLoop, htest]
      by_cases hcond :
          effWidth meas (joinWords (g ++ [w])) > maxW ∧ joinWords g ≠ []
      · rw [if_pos hcond]
        have hsingle : ∀ u ∈ [w], goodWord u := by
          intro u hu; simp at hu; subst hu; exact hw
        have hrec := ih [w] hws2 hsingle
        simp only [joinWords] at hrec
        simp [List.flatMap_cons, hrec, fieldsOf_joinWords g hg]
      · rw [if_neg hcond]
        have := ih (g ++ [w]) hws2 hgw
        simpa using this

theorem wrapLoop_eq_nil_iff (meas : Str → Option ℚ) (maxW : ℚ) :
    ∀ (ws : List Str) (cl : Str), (∀ w ∈ ws, w ≠ []) →
      (wrapLoop meas maxW ws cl = [] ↔ ws = [] ∧ cl = []) := by
  intro ws
  induction ws with
  | nil =>
    intro cl _
    by_cases h0 : cl = [] <;> simp [wrapLoop, h0]
  | cons w ws ih =>
    intro cl hws
    have hw : w ≠ [] := hws w (by simp)
    have hws2 : ∀ u ∈ ws, u ≠ [] :=
      fun u hu => hws u (List.mem_cons_of_mem w hu)
    have htest : (if cl = [] then w else cl ++ ' ' :: w) ≠ [] := by
      by_cases h0 : cl = []
      · simpa [h0] using hw
      · simp [h0]
    constructor
    · intro h
      exfalso
      by_cases hcond :
          effWidth meas (if cl = [] then w else cl ++ ' ' :: w) > maxW
            ∧ cl ≠ []
      · simp only [wrapLoop, if_pos hcond] at h
        exact List.cons_ne_nil _ _ h
      · simp only [wrapLoop, if_neg hcond] at h
        have := (ih _ hws2).mp h
        exact htest this.2
    · intro h
      exact absurd h.1 (List.cons_ne_nil w ws)

theorem wrapLines_eq_nil_iff (meas : Str → Option ℚ) (maxW : ℚ) (t : Str) :
    wrapLines meas maxW t = [] ↔ fieldsOf t = [] := by
  have h := wrapLoop_eq_nil_iff meas maxW (fieldsOf t) []
    (fun w hw => (fieldsOf_good t w hw).1)
  simpa [wrapLines] using h

/-- A measurement function is width-monotone when joining two pieces with a
space never measures below either piece — true of glyph-width sums (the
real `MeasureTextWidth`) and of the per-character fallback estimate. -/
def MonoMeas (meas : Str → Option ℚ) : Prop :=
  (∀ a b : Str, effWidth meas a ≤ effWidth meas (a ++ ' ' :: b))
    ∧ ∀ a b : Str, effWidth meas b ≤ effWidth meas (a ++ ' ' :: b)

theorem word_le_joinWords (meas : Str → Option ℚ) (hm : MonoMeas meas) :
    ∀ (g : List Str), ∀ u ∈ g, effWidth meas u ≤ effWidth meas (joinWords g) := by
  intro g
  induction g with
  | nil => simp
  | cons a t ih =>
    intro u hu
    match t with
    | [] =>
      have : u = a := by simpa using hu
      subst this
      exact le_of_eq rfl
    | b :: t2 =>
      have hj : joinWords (a :: b :: t2) = a ++ ' ' :: joinWords (b :: t2) := by
        simp [joinWords]
      rw [hj]
      rcases List.mem_cons.mp hu with h | h
      · subst h; exact hm.1 u (joinWords (b :: t2))
      · exact le_trans (ih u h) (hm.2 a (joinWords (b :: t2)))

/-- Invariant of the accumulator: a word group never holds an overflowing
word together with another word. -/
def soloGroup (meas : Str → Option ℚ) (maxW : ℚ) (g : List Str) : Prop :=
  ∀ u ∈ g, effWidth meas u > maxW → g = [u]

theorem wrapLoop_solo (meas : Str → Option ℚ) (maxW : ℚ) (hm : MonoMeas meas) :
    ∀ (ws g : List Str), (∀ w ∈ ws, goodWord w) → (∀ w ∈ g, goodWord w) →
      soloGroup meas maxW g →
      ∀ L ∈ wrapLoop meas maxW ws (joinWords g),
        L ≠ [] ∧ ∀ w ∈ fieldsOf L, effWidth meas w > maxW → fieldsOf L = [w] := by
  intro ws
  induction ws with
  | nil =>
    intro g _ hg hsolo L hL
    by_cases h0 : g = []
    · subst h0; simp [wrapLoop, joinWords] at hL
    · have hne := joinWords_ne_nil g hg h0
      simp only [wrapLoop, if_neg hne, List.mem_singleton] at hL
      subst hL
      refine ⟨hne, ?_⟩
      rw [fieldsOf_joinWords g hg]
      exact hsolo
  | cons w ws ih =>
    intro g hws hg hsolo L hL
    have hw : goodWord w := hws w (by simp)
    have hws2 : ∀ u ∈ ws, goodWord u :=
      fun u hu => hws u (List.mem_cons_of_mem w hu)
    have hsingle : ∀ u ∈ [w], goodWord u := by
      intro u hu; simp at hu; subst hu; exact hw
    have hsolo1 : soloGroup meas maxW [w] := by
      intro u hu _; simp at hu; subst hu; rfl
    by_cases h0 : g = []
    · subst h0
      simp only [joinWords, wrapLoop, ne_eq, not_true_eq_false, and_false,
        if_false, if_pos rfl] at hL
      have : w = joinWords [w] := rfl
      rw [this] at hL
      exact ih [w] hws2 hsingle hsolo1 L hL
    · have hne := joinWords_ne_nil g hg h0
      have htest :
          (if joinWords g = [] then w else joinWords g ++ ' ' :: w)
            = joinWords (g ++ [w]) := by
        rw [if_neg hne, joinWords_concat g w h0]
      simp only [wrapLoop, htest] at hL
      by_cases hcond :
          effWidth meas (joinWords (g ++ [w])) > maxW ∧ joinWords g ≠ []
      · rw [if_pos hcond] at hL
        rcases List.mem_cons.mp hL with h | h
        · subst h
          refine ⟨hne, ?_⟩
          rw [fieldsOf_joinWords g hg]
          exact hsolo
        · have : w = joinWords [w] := rfl
          rw [this] at h
          exact ih [w] hws2 hsingle hsolo1 L h
      · rw [if_neg hcond] at hL
        have hle : effWidth meas (joinWords (g ++ [w])) ≤ maxW := by
          by_contra hgt
          exact hcond ⟨lt_of_not_le hgt, hne⟩
        have hgw : ∀ u ∈ g ++ [w], goodWord u := by
          intro u hu
          rcases List.mem_append.mp hu with h | h
          · exact hg u h
          · simp at h; subst h; exact hw
        have hsolo2 : soloGroup meas maxW (g ++ [w]) := by
          intro u hu hgt
          exact absurd (le_trans (word_le_joinWords meas hm (g ++ [w]) u hu) hle)
            (not_le_of_gt hgt)
        exact ih (g ++ [w]) hws2 hgw hsolo2 L hL

/-! ### Auxiliary facts for the claim theorems -/

theorem foldl_add_eq (f : ℕ → ℚ) :
    ∀ (l : List ℕ) (a : ℚ), l.foldl (fun acc i => acc + f i) a = a + (l.map f).sum := by
  intro l
  induction l with
  | nil => intro a; simp
  | cons x t ih => intro a; simp [List.foldl_cons, ih, add_assoc]

theorem sum_range_eq_list_sum (f : ℕ → ℚ) (n : ℕ) :
    ∑ i ∈ Finset.range n, f i = ((List.range n).map f).sum := by
  induction n with
  | zero => simp
  | succ n ih => rw [Finset.sum_range_succ, List.range_succ]; simp [ih]

/-- The fallback estimate (used when measurement fails on every input) is
width-monotone. -/
theorem fallback_monoMeas : MonoMeas (fun _ => none) := by
  constructor <;> intro a b <;>
    simp only [effWidth, Option.getD_none, List.length_append,
      List.length_cons] <;>
    exact_mod_cast Nat.mul_le_mul_right 5 (by omega)

/-! ### Claim theorems -/

/-- C1: for every invoice, the grand total written on the final line of the
totals block equals `subtotal − discountAmount + (taxExempt ? 0 : taxAmount)`
with `taxAmount = subtotal × tax` and `discountAmount = subtotal × discount`
both computed from the raw pre-discount subtotal; the discount is subtracted
before tax is conditionally added and the tax amount is never recomputed on
the discounted subtotal. -/
theorem grand_total_from_raw_subtotal (inv : Invoice) :
    (totalsLinesOf inv).getLast?
      = some (TotalsLine.line totalLabel
          (subtotalOf inv - subtotalOf inv * inv.discount
            + (if inv.taxExempt = true then 0 else subtotalOf inv * inv.tax))) := by
  unfold totalsLinesOf writeTotals
  rw [List.getLast?_concat]
  cases hx : inv.taxExempt <;> simp

/-- C2: in the rendered totals block the tax line appears iff the invoice is
not tax exempt and the tax amount is strictly positive; the fixed
legal-notice line appears exactly once when tax exempt and never otherwise;
the tax line and the notice never both appear. -/
theorem tax_line_gating (inv : Invoice) :
    ((∃ v, TotalsLine.line taxLabel v ∈ totalsLinesOf inv)
        ↔ inv.taxExempt = false ∧ subtotalOf inv * inv.tax > 0)
      ∧ ((totalsLinesOf inv).count (TotalsLine.notice taxExemptNotice)
          = if inv.taxExempt = true then 1 else 0)
      ∧ ¬((∃ v, TotalsLine.line taxLabel v ∈ totalsLinesOf inv)
          ∧ TotalsLine.notice taxExemptNotice ∈ totalsLinesOf inv) := by
  have h1 : taxLabel ≠ subtotalLabel := by decide
  have h2 : taxLabel ≠ discountLabel := by decide
  have h3 : taxLabel ≠ totalLabel := by decide
  cases hx : inv.taxExempt <;>
    by_cases ht : subtotalOf inv * inv.tax > 0 <;>
    by_cases hd : subtotalOf inv * inv.discount > 0 <;>
    simp [totalsLinesOf, writeTotals, hx, ht, hd, List.count_append,
      List.count_cons, h1, h2, h3]

/-- C3: for every invoice whose items, quantities and rates sequences have
unequal lengths, the subtotal is the sum over all item indices of
quantity times rate, with a quantity missing from the shorter sequence
defaulting to 1 and a missing rate defaulting to 0. -/
theorem subtotal_defaulting (inv : Invoice)
    (h : ¬(inv.quantities.length = inv.items.length
            ∧ inv.rates.length = inv.items.length)) :
    subtotalOf inv
      = ∑ i ∈ Finset.range inv.items.length,
          ((inv.quantities.getD i 1 : ℤ) : ℚ) * inv.rates.getD i 0 := by
  rw [subtotalOf, foldl_add_eq, sum_range_eq_list_sum]
  simp

/-- A footer with every field empty and both gates off, used to build
concrete test invoices. -/
def emptyFooter : Footer :=
  ⟨[], [], false, [], false, [], [], [], [], [], [], [], [], []⟩

/-- An invoice with every field empty or zero, used as the base of concrete
test invoices. -/
def baseInvoice : Invoice :=
  ⟨[], [], [], [], [], [], [], [], [], [], [], 0, false, 0, [], [],
    emptyFooter⟩

/-- The spec's unequal-length example: three items, one quantity, no
rates. -/
def invUnequal : Invoice :=
  { baseInvoice with items := [['A'], ['B'], ['C']], quantities := [1] }

/-- Witness for C3 at the spec's own example: items `["A","B","C"]`,
quantities `[1]`, rates `[]` give subtotal 0. -/
theorem subtotal_defaulting_witness :
    ¬(invUnequal.quantities.length = invUnequal.items.length
        ∧ invUnequal.rates.length = invUnequal.items.length)
      ∧ subtotalOf invUnequal = 0 := by
  refine ⟨by decide, ?_⟩
  rw [subtotal_defaulting _ (by decide)]
  norm_num [invUnequal, baseInvoice, Finset.sum_range_succ]

/-- C4: for every input text, positive maximum width and measurement
function, the greedy wrapping loses no content — the words of the emitted
lines, concatenated in order, are exactly the whitespace-delimited words of
the input. -/
theorem wrap_preserves_words (text : Str) (maxWidth : ℚ)
    (meas : Str → Option ℚ) (hpos : 0 < maxWidth) :
    (wrapLines meas maxWidth text).flatMap fieldsOf = fieldsOf text := by
  have h := wrapLoop_content meas maxWidth (fieldsOf text) []
    (fieldsOf_good text) (by simp)
  simpa [wrapLines, joinWords] using h

/-- Witness for C4 at a concrete text and width. -/
theorem wrap_preserves_words_witness :
    (0:ℚ) < 10
      ∧ (wrapLines (fun _ => none) 10 ("lorem ipsum dolor".toList)).flatMap fieldsOf
          = fieldsOf ("lorem ipsum dolor".toList) :=
  ⟨by norm_num,
   wrap_preserves_words ("lorem ipsum dolor".toList) 10 (fun _ => none) (by norm_num)⟩

/-- C5: the wrapping routine never splits a word mid-word — every emitted
line is non-empty (a completed line is flushed only when the accumulator is
non-empty, so the first word placed on a line is never rejected for width),
and any word whose measured width exceeds the maximum width sits alone on
its line.  The measurement function is assumed width-monotone under
space-joining, as glyph-width sums and the fallback estimate are. -/
theorem wrap_overflow_word_alone (text : Str) (maxWidth : ℚ)
    (meas : Str → Option ℚ) (hm : MonoMeas meas) :
    ∀ L ∈ wrapLines meas maxWidth text,
      L ≠ [] ∧ ∀ w ∈ fieldsOf L, effWidth meas w > maxWidth → fieldsOf L = [w] := by
  have h := wrapLoop_solo meas maxWidth hm (fieldsOf text) []
    (fieldsOf_good text) (by simp) (by intro u hu; simp at hu)
  simpa [wrapLines, joinWords] using h

/-- Witness for C5: with the fallback measurement and width 20, the word
`abcdef` measures 30 and is emitted alone on its line. -/
theorem wrap_overflow_word_alone_witness :
    "abcdef".toList ∈ wrapLines (fun _ => none) 20 ("abcdef gh".toList)
      ∧ effWidth (fun _ => none) "abcdef".toList > 20
      ∧ fieldsOf ("abcdef".toList) = ["abcdef".toList] := by
  refine ⟨by decide, by decide, ?_⟩
  exact (wrap_overflow_word_alone ("abcdef gh".toList) 20 (fun _ => none)
    fallback_monoMeas ("abcdef".toList) (by decide)).2 ("abcdef".toList)
    (by decide) (by decide)

/-- A 71-character item description whose two long words wrap into two
lines under the fallback measurement at the 330-point description column
width. -/
def longItem : Str :=
  ("aaaaaaaaaaaaaaaaaaaaaaaaaaaaaaaaaaa"
    ++ " bbbbbbbbbbbbbbbbbbbbbbbbbbbbbbbbbbb").toList

/-- C6 counterexample: for this over-40-character description the wrapped
block has two lines and the numeric cells are NOT placed at the vertical
position of the first wrapped line (the row starts at 0, the first wrapped
line is drawn at 0, but the cells are placed at 12). -/
theorem row_numeric_not_first_line :
    longItem.length > 40
      ∧ (writeRowDescLines (fun _ => none) longItem).length = 2
      ∧ writeRowNumericY (fun _ => none) 0 longItem ≠ 0 := by
  have h1 : longItem.length > 40 := by decide
  have h2 : (writeRowDescLines (fun _ => none) longItem).length = 2 := by decide
  refine ⟨h1, h2, ?_⟩
  rw [writeRowNumericY, if_pos h1, h2]
  norm_num

/-- C6 amended: for every item row whose description exceeds the fixed
40-character threshold (and wraps to at least one line), the quantity, rate
and amount cells are placed at the vertical position of the LAST wrapped
line of the description — one line height above the end of the wrapped
block — which coincides with the first line only when exactly one line is
emitted. -/
theorem row_numeric_last_line (meas : Str → Option ℚ) (startY : ℚ)
    (item : Str) (hlen : item.length > 40) (hwords : fieldsOf item ≠ []) :
    writeRowNumericY meas startY item
      = startY + 12 * (((writeRowDescLines meas item).length - 1 : ℕ) : ℚ) := by
  have hne : writeRowDescLines meas item ≠ [] := by
    intro h
    exact hwords ((wrapLines_eq_nil_iff meas _ item).mp h)
  have hpos : 1 ≤ (writeRowDescLines meas item).length :=
    Nat.one_le_iff_ne_zero.mpr (fun h => hne (List.length_eq_zero.mp h))
  rw [writeRowNumericY, if_pos hlen, Nat.cast_sub hpos]
  push_cast
  ring

/-- Witness for the amended C6 at the two-line description. -/
theorem row_numeric_last_line_witness :
    longItem.length > 40 ∧ fieldsOf longItem ≠ []
      ∧ writeRowNumericY (fun _ => none) 5 longItem
          = 5 + 12 * (((writeRowDescLines (fun _ => none) longItem).length
              - 1 : ℕ) : ℚ) :=
  ⟨by decide, by decide,
   row_numeric_last_line (fun _ => none) 5 longItem (by decide) (by decide)⟩

/-- C7: `GetSymbol` maps the empty code to the empty string; otherwise it
looks the uppercased code up in the active symbol table, returning the
mapped symbol on a hit and the original code plus one trailing space on a
miss. -/
theorem getSymbol_spec (symbols : List (String × String)) (c : String)
    (hc : c ≠ "") :
    getCurrencySymbol symbols ("") = ""
      ∧ (∀ s, symbols.lookup (strToUpper c) = some s →
          getCurrencySymbol symbols c = s)
      ∧ (symbols.lookup (strToUpper c) = none →
          getCurrencySymbol symbols c = c ++ " ") := by
  refine ⟨by simp [getCurrencySymbol], ?_, ?_⟩
  · intro s hs
    simp [getCurrencySymbol, hc, hs]
  · intro hs
    simp [getCurrencySymbol, hc, hs]

/-- Witness for C7: lowercase hit on the default table, and the fallback
for an unknown code. -/
theorem getSymbol_spec_witness :
    getCurrencySymbol defaultCurrencySymbols ("eur") = "€"
      ∧ getCurrencySymbol defaultCurrencySymbols ("XYZ") = "XYZ " := by
  constructor
  · exact (getSymbol_spec defaultCurrencySymbols ("eur") (by decide)).2.1 ("€")
      (by decide)
  · exact (getSymbol_spec defaultCurrencySymbols ("XYZ") (by decide)).2.2
      (by decide)

/-- A footer with the registration gate on whose registration info is the
two-character literal escape (backslash-n). -/
def regEscFooter : Footer :=
  { emptyFooter with showRegistration := true, registrationInfo := ['\\', 'n'] }

/-- C8 counterexample: with `showRegistration = true` and the non-empty
registration info `"\\n"`, the converted text is a lone line break, the wrap
emits no lines, and no registration cell is rendered — refuting the
if-and-only-if as stated. -/
theorem footer_gating_counterexample :
    regEscFooter.showRegistration = true
      ∧ regEscFooter.registrationInfo ≠ []
      ∧ ∀ s, FooterCell.reg s ∉ writeFooterCells (fun _ => none) [] regEscFooter := by
  refine ⟨by decide, by decide, ?_⟩
  intro s
  have h : writeFooterCells (fun _ => none) [] regEscFooter
      = [FooterCell.company [], FooterCell.address [], FooterCell.zipCity [],
         FooterCell.contact [], FooterCell.bankHeader, FooterCell.bank [],
         FooterCell.pageId (" · 1/1".toList)] := by decide
  rw [h]
  simp

/-- C8 amended: the VAT line is rendered iff `showVatId` is true and vatId
is non-empty; the registration content is rendered iff `showRegistration`
is true and registrationInfo is non-empty AND, in the case where the
converted registration text contains a real line break, the converted text
has at least one non-whitespace word (otherwise the wrapped block is empty
and nothing is drawn). -/
theorem exists_mem_wrapLines_iff (meas : Str → Option ℚ) (maxW : ℚ)
    (t : Str) : (∃ L, L ∈ wrapLines meas maxW t) ↔ fieldsOf t ≠ [] := by
  constructor
  · rintro ⟨L, hL⟩ h
    rw [(wrapLines_eq_nil_iff meas maxW t).mpr h] at hL
    exact List.not_mem_nil L hL
  · intro h
    refine List.exists_mem_of_ne_nil _ ?_
    intro hw
    exact h ((wrapLines_eq_nil_iff meas maxW t).mp hw)

theorem mem_ite_list {α : Type} (P : Prop) [Decidable P] (x : α)
    (A B : List α) :
    (x ∈ if P then A else B) ↔ (P ∧ x ∈ A) ∨ (¬P ∧ x ∈ B) := by
  by_cases h : P <;> simp [h]

theorem mem_ite_nil_list {α : Type} (P : Prop) [Decidable P] (x : α)
    (A : List α) : (x ∈ if P then A else []) ↔ P ∧ x ∈ A := by
  by_cases h : P <;> simp [h]

set_option maxRecDepth 100000 in
theorem footer_gating (meas : Str → Option ℚ) (id : Str) (f : Footer) :
    ((∃ s, FooterCell.vat s ∈ writeFooterCells meas id f)
        ↔ f.showVatId = true ∧ f.vatId ≠ [])
      ∧ ((∃ s, FooterCell.reg s ∈ writeFooterCells meas id f)
          ↔ f.showRegistration = true ∧ f.registrationInfo ≠ []
              ∧ ((replaceEscapes f.registrationInfo).contains '\n' = true →
                  fieldsOf (replaceEscapes f.registrationInfo) ≠ [])) := by
  have hW := exists_mem_wrapLines_iff meas 150 (replaceEscapes f.registrationInfo)
  unfold writeFooterCells
  constructor
  · simp only [List.mem_append, List.mem_cons,
      List.mem_singleton, List.not_mem_nil, mem_ite_list, mem_ite_nil_list,
      List.mem_map]
    simp
  · simp only [List.mem_append, List.mem_cons,
      List.mem_singleton, List.not_mem_nil, mem_ite_list, mem_ite_nil_list,
      List.mem_map]
    simp only [reduceCtorEq, and_false, false_and, false_or, or_false,
      exists_false, FooterCell.reg.injEq, exists_eq_right]
    rw [← hW]
    constructor
    · rintro ⟨s, hcond, hs | hs⟩
      · exact ⟨hcond.1, hcond.2, fun _ => ⟨s, hs.2⟩⟩
      · exact ⟨hcond.1, hcond.2, fun hc => absurd hc hs.1⟩
    · rintro ⟨h1, h2, h3⟩
      by_cases hc : (replaceEscapes f.registrationInfo).contains '\n' = true
      · rcases h3 hc with ⟨L, hL⟩
        exact ⟨L, ⟨h1, h2⟩, Or.inl ⟨hc, hL⟩⟩
      · exact ⟨replaceEscapes f.registrationInfo, ⟨h1, h2⟩, Or.inr ⟨hc, rfl⟩⟩

/-- Footer with the VAT gate on, for the C8 witness. -/
def vatFooter : Footer :=
  { emptyFooter with showVatId := true, vatId := "DE1".toList }

/-- Witness for the amended C8: the gating equivalence applied at a
concrete footer whose VAT cell is rendered. -/
theorem footer_gating_witness :
    vatFooter.showVatId = true ∧ vatFooter.vatId ≠ [] :=
  (footer_gating (fun _ => none) [] vatFooter).1.mp ⟨"DE1".toList, by decide⟩

set_option maxRecDepth 40000 in
/-- C9: if either required font asset is missing, `Render` returns the
error naming both expected font paths before any section is drawn or any
output is produced; if both fonts are present and loadable, rendering
proceeds through the full fixed section pipeline. -/
theorem font_precondition (env : FontEnv) (meas : Str → Option ℚ)
    (inv : Invoice) :
    ((env.fontExists interRegularFont = false
        ∨ env.fontExists interBoldFont = false) →
        render env meas inv = Except.error fontsMissingMsg
          ∧ interRegularFont <:+: fontsMissingMsg
          ∧ interBoldFont <:+: fontsMissingMsg)
      ∧ (env.fontExists interRegularFont = true
          ∧ env.fontExists interBoldFont = true
          ∧ env.loadOk interRegularFont = true
          ∧ env.loadOk interBoldFont = true →
          render env meas inv = Except.ok (renderSections meas inv)) := by
  have hinf1 : interRegularFont <:+: fontsMissingMsg := by
    refine ⟨("Error: The Inter fonts are missing. Please download and restore the "
      ++ "Inter font files.\nYou can download them from: "
      ++ "https://github.com/rsms/inter\nDirectories needed:\n- ").toList,
      "\n- ".toList ++ interBoldFont, ?_⟩
    decide
  have hinf2 : interBoldFont <:+: fontsMissingMsg := by
    refine ⟨("Error: The Inter fonts are missing. Please download and restore the "
      ++ "Inter font files.\nYou can download them from: "
      ++ "https://github.com/rsms/inter\nDirectories needed:\n- ").toList
      ++ interRegularFont ++ "\n- ".toList, [], ?_⟩
    decide
  constructor
  · intro h
    refine ⟨?_, hinf1, hinf2⟩
    rcases h with h | h
    · simp [render, setupFonts, h]
    · by_cases h2 : env.fontExists interRegularFont = false
      · simp [render, setupFonts, h2]
      · simp [render, setupFonts, h, h2]
  · rintro ⟨h1, h2, h3, h4⟩
    simp [render, setupFonts, h1, h2, h3, h4]

/-- The environment in which no font file exists. -/
def envNoFonts : FontEnv := ⟨fun _ => false, fun _ => true⟩

/-- The environment in which every font file exists and loads. -/
def envAllFonts : FontEnv := ⟨fun _ => true, fun _ => true⟩

/-- Witness for C9: a failing environment produces the message naming both
paths; a complete environment renders the full pipeline. -/
theorem font_precondition_witness :
    (render envNoFonts (fun _ => none) baseInvoice
        = Except.error fontsMissingMsg
      ∧ interRegularFont <:+: fontsMissingMsg
      ∧ interBoldFont <:+: fontsMissingMsg)
      ∧ render envAllFonts (fun _ => none) baseInvoice
          = Except.ok (renderSections (fun _ => none) baseInvoice) :=
  ⟨(font_precondition envNoFonts (fun _ => none) baseInvoice).1 (Or.inl rfl),
   (font_precondition envAllFonts (fun _ => none) baseInvoice).2
     ⟨rfl, rfl, rfl, rfl⟩⟩

/-- C10: in the render pipeline the literal backslash-n escape is converted
to a real line break in the note text before the notes block is wrapped,
and in the footer registration info before the multi-line test and
wrapping (as it is in the from/to blocks). -/
theorem escape_conversion (meas : Str → Option ℚ) (inv : Invoice)
    (hnote : inv.note ≠ []) (hreg : inv.footer.showRegistration = true)
    (hreg2 : inv.footer.registrationInfo ≠ []) :
    Section.notes (wrapLines meas 320 (replaceEscapes inv.note))
        ∈ renderSections meas inv
      ∧ (if (replaceEscapes inv.footer.registrationInfo).contains '\n' = true
         then ∀ L ∈ wrapLines meas 150 (replaceEscapes inv.footer.registrationInfo),
                FooterCell.reg L
                  ∈ writeFooterCells meas (fullInvoiceId inv) inv.footer
         else FooterCell.reg (replaceEscapes inv.footer.registrationInfo)
                  ∈ writeFooterCells meas (fullInvoiceId inv) inv.footer) := by
  constructor
  · simp [renderSections, hnote]
  · have hmem : ∀ x, x ∈ (if (replaceEscapes inv.footer.registrationInfo).contains '\n' = true
        then (wrapLines meas 150 (replaceEscapes inv.footer.registrationInfo)).map FooterCell.reg
        else [FooterCell.reg (replaceEscapes inv.footer.registrationInfo)]) →
        x ∈ writeFooterCells meas (fullInvoiceId inv) inv.footer := by
      intro x hx
      unfold writeFooterCells
      refine List.mem_append_left _ (List.mem_append_left _
        (List.mem_append_left _ (List.mem_append_left _
          (List.mem_append_left _ (List.mem_append_left _
            (List.mem_append_left _ (List.mem_append_left _
              (List.mem_append_right _ ?_))))))))
      rw [if_pos ⟨hreg, hreg2⟩]
      split at hx
      case isTrue hc => rw [if_pos hc]; exact hx
      case isFalse hc => rw [if_neg hc]; exact hx
    by_cases hc :
        (replaceEscapes inv.footer.registrationInfo).contains '\n' = true
    · rw [if_pos hc]
      intro L hL
      refine hmem _ ?_
      rw [if_pos hc]
      exact List.mem_map_of_mem FooterCell.reg hL
    · rw [if_neg hc]
      refine hmem _ ?_
      rw [if_neg hc]
      exact List.mem_singleton_self _

/-- Footer with a single-line registration info, for the C10 witness. -/
def escFooter : Footer :=
  { emptyFooter with showRegistration := true, registrationInfo := "HRB 1".toList }

/-- Invoice with an escaped note and a registration footer, for the C10
witness. -/
def invEscape : Invoice :=
  { baseInvoice with note := "a\\nb".toList, footer := escFooter }

/-- Witness for C10 at a concrete invoice. -/
theorem escape_conversion_witness :
    Section.notes (wrapLines (fun _ => none) 320 (replaceEscapes invEscape.note))
        ∈ renderSections (fun _ => none) invEscape
      ∧ FooterCell.reg (replaceEscapes invEscape.footer.registrationInfo)
          ∈ writeFooterCells (fun _ => none) (fullInvoiceId invEscape)
              invEscape.footer := by
  have h := escape_conversion (fun _ => none) invEscape (by decide) (by decide)
    (by decide)
  refine ⟨h.1, ?_⟩
  have h2 := h.2
  rw [if_neg (by decide)] at h2
  exact h2

end InvoiceGen
